import Mathlib

/-!
Shallow embedding of `scripts/create_icon.py`: a 128x128 RGBA icon generator
with a minimal PNG encoder (chunk framing, CRC32, zlib-compressed scanlines).

Conventions of the embedding:
* byte strings are `List Nat` whose elements are byte values (< 256 whenever
  they come from the program itself);
* the Python comparison `dist <= 48`, where `dist = (dx*dx + dy*dy) ** 0.5`,
  is embedded as the exact integer test `dx*dx + dy*dy ≤ 48*48` (the real
  square root is strictly monotone and `48*48 = 2304` is a perfect square, so
  the two tests agree on all integer inputs);
* `zlib.compress(raw, 9)` is an external library call, not code of this
  repository, so the compressor is a parameter of the encoder pipeline;
* file-system effects are embedded by the strings the program passes to
  `open` and `os.makedirs`.
-/

/-- Image width, `width = 128` in `create_icon.py`. -/
def width : Nat := 128

/-- Image height, `height = 128` in `create_icon.py`. -/
def height : Nat := 128

/-- Embedding of `make_pixel(x, y)`: nested geometric predicates producing an
RGBA tuple.  The control flow mirrors the Python source: the eye test fires
only inside the horizontal band `43 ≤ y ≤ 55` and inside one of the two eye
circles; every later test is reached only when the earlier ones failed; the
whole body is guarded by the head-circle test `dist ≤ 48`. -/
def make_pixel (x y : Int) : Nat × Nat × Nat × Nat :=
  let dx := x - 64
  let dy := y - 64
  if dx * dx + dy * dy ≤ 48 * 48 then
    if 43 ≤ y ∧ y ≤ 55 ∧
        ((x - 48) * (x - 48) + (y - 48) * (y - 48) ≤ 64 ∨
         (x - 80) * (x - 80) + (y - 48) * (y - 48) ≤ 64) then
      (255, 255, 255, 255)
    else if 68 ≤ y ∧ y ≤ 72 ∧ 48 ≤ x ∧ x ≤ 80 then
      (255, 255, 255, 255)
    else if 14 ≤ y ∧ y ≤ 18 ∧ 62 ≤ x ∧ x ≤ 66 then
      (100, 149, 237, 255)
    else if y < 18 ∧ 58 ≤ x ∧ x ≤ 70 ∧
        (x - 64) * (x - 64) + (y - 10) * (y - 10) ≤ 36 then
      (100, 149, 237, 255)
    else
      (65, 105, 225, 255)
  else
    (0, 0, 0, 0)

/-- Embedding of `struct.pack('BBBB', r, g, b, a)`: the four RGBA components
as a 4-byte string. -/
def packPixel (p : Nat × Nat × Nat × Nat) : List Nat :=
  [p.1, p.2.1, p.2.2.1, p.2.2.2]

/-- One round of the reflected CRC-32 bit loop (polynomial `0xEDB88320`), as
computed by zlib. -/
def crc32Step (c : Nat) : Nat :=
  if c % 2 = 1 then (c / 2) ^^^ 0xEDB88320 else c / 2

/-- Feed one byte into a CRC-32 accumulator: xor it in, then run eight rounds
of the bit loop. -/
def crc32Update (crc b : Nat) : Nat :=
  crc32Step^[8] (crc ^^^ b)

/-- Embedding of `zlib.crc32(data)`: initial value `0xFFFFFFFF`, one update
per byte, final complement. -/
def crc32 (data : List Nat) : Nat :=
  (data.foldl crc32Update 0xFFFFFFFF) ^^^ 0xFFFFFFFF

/-- Embedding of `struct.pack('>I', n)`: the 4-byte big-endian encoding. -/
def packBE32 (n : Nat) : List Nat :=
  [n / 2 ^ 24 % 256, n / 2 ^ 16 % 256, n / 2 ^ 8 % 256, n % 256]

/-- Embedding of `chunk(ctype, data)` from `create_icon.py`:
`struct.pack('>I', len(data)) + c + struct.pack('>I', zlib.crc32(c) & 0xffffffff)`
with `c = ctype + data`. -/
def chunk (ctype data : List Nat) : List Nat :=
  let c := ctype ++ data
  packBE32 data.length ++ c ++ packBE32 (crc32 c &&& 0xffffffff)

/-- Embedding of the raw-scanline loop of `create_icon.py`: starting from the
empty byte string, for each row append the filter byte `0x00` and then the
four packed bytes of `make_pixel(x, y)` for each column. -/
def raw : List Nat :=
  (List.range height).foldl
    (fun acc (y : Nat) =>
      (List.range width).foldl
        (fun acc2 (x : Nat) => acc2 ++ packPixel (make_pixel x y))
        (acc ++ [0]))
    []

/-- The 8-byte PNG signature `b'\x89PNG\r\n\x1a\n'`. -/
def sig : List Nat := [0x89, 0x50, 0x4E, 0x47, 0x0D, 0x0A, 0x1A, 0x0A]

/-- Embedding of `struct.pack('>IIBBBBB', width, height, 8, 6, 0, 0, 0)`: the
IHDR payload. -/
def ihdr : List Nat := packBE32 width ++ packBE32 height ++ [8, 6, 0, 0, 0]

/-- The ASCII bytes of the chunk type tag `b'IHDR'`. -/
def ihdrTag : List Nat := [0x49, 0x48, 0x44, 0x52]

/-- The ASCII bytes of the chunk type tag `b'IDAT'`. -/
def idatTag : List Nat := [0x49, 0x44, 0x41, 0x54]

/-- The ASCII bytes of the chunk type tag `b'IEND'`. -/
def iendTag : List Nat := [0x49, 0x45, 0x4E, 0x44]

/-- Embedding of the assembled stream
`png = sig + chunk(b'IHDR', ihdr) + chunk(b'IDAT', idat) + chunk(b'IEND', b'')`
with `idat = zlib.compress(raw, 9)`.  The zlib compressor is an external
library call, so it is a parameter `compress` of the pipeline; the program
applies it to `raw`. -/
def png (compress : List Nat → List Nat) : List Nat :=
  sig ++ chunk ihdrTag ihdr ++ chunk idatTag (compress raw) ++ chunk iendTag []

/-- Embedding of one `os.path.join(a, b)` step for a relative component `b`
(POSIX rules): keep `b` alone if `a` is empty, append directly if `a` already
ends in a slash, otherwise insert a separator. -/
def joinOne (a b : String) : String :=
  if a = "" then b
  else if a.data.getLast? = some '/' then a ++ b
  else a ++ "/" ++ b

/-- Embedding of
`outpath = os.path.join(os.path.dirname(__file__), '..', 'media', 'icon.png')`.
The directory containing the script, `os.path.dirname(__file__)`, depends on
how the script is invoked, so it is a parameter. -/
def outpath (scriptDir : String) : String :=
  joinOne (joinOne (joinOne scriptDir "..") "media") "icon.png"

/-- Embedding of POSIX `os.path.dirname` on the character list of a path:
everything before the final slash, with trailing slashes stripped unless the
result consists of slashes only. -/
def dirnameChars (l : List Char) : List Char :=
  let r := l.reverse.dropWhile (fun c => c != '/')
  if r.all (fun c => c == '/') then r.reverse
  else (r.dropWhile (fun c => c == '/')).reverse

/-- Embedding of `os.path.dirname(p)`. -/
def dirname (p : String) : String :=
  String.mk (dirnameChars p.data)

/-- The directory the program passes to
`os.makedirs(os.path.dirname(outpath), exist_ok=True)` before writing. -/
def mkdirTarget (scriptDir : String) : String :=
  dirname (outpath scriptDir)

/-- Split a character list at every `'/'`, keeping empty components, like
`p.split('/')`. -/
def splitSlash (l : List Char) : List (List Char) :=
  match l with
  | [] => [[]]
  | c :: rest =>
    match splitSlash rest with
    | [] => [[]]
    | g :: gs => if c = '/' then [] :: g :: gs else (c :: g) :: gs

/-- Resolution of `..` components of a path into its component list, used
only to state that two path strings denote different files: split on the
separator and fold, popping one component at each `..`. -/
def resolvePath (p : String) : List String :=
  ((splitSlash p.data).map String.mk).foldl
    (fun acc c => if c = ".." then acc.dropLast else acc ++ [c]) []

/-- Decoder view of an IHDR payload, following the PNG specification's words:
exactly 13 bytes holding big-endian 4-byte width and height, then bit depth,
color type, compression method, filter method and interlace method.  This
definition is written from the spec side, to be compared with the program's
`ihdr`. -/
def decodeIHDR (p : List Nat) :
    Option (Nat × Nat × Nat × Nat × Nat × Nat × Nat) :=
  match p with
  | [w3, w2, w1, w0, h3, h2, h1, h0, d, ct, cm, fm, im] =>
      some (((w3 * 256 + w2) * 256 + w1) * 256 + w0,
            ((h3 * 256 + h2) * 256 + h1) * 256 + h0, d, ct, cm, fm, im)
  | _ => none

/-- C1: the spec says `make_pixel(64, 10)` (the antenna-ball center) is the
antenna color `(100, 149, 237, 255)`.  The code disagrees: the antenna-ball
test is nested inside the head-circle guard `dist ≤ 48`, and `(64, 10)` lies
at distance 54 from the head center `(64, 64)`, so the guard fails and the
code returns the fully transparent pixel.  (The second half of the claim,
`make_pixel(0, 0) = (0, 0, 0, 0)`, does hold.)  This theorem evaluates the
embedded code at the failing input and at `(0, 0)`. -/
theorem make_pixel_at_antenna_center_and_origin :
    make_pixel 64 10 = (0, 0, 0, 0) ∧
    make_pixel 64 10 ≠ (100, 149, 237, 255) ∧
    make_pixel 0 0 = (0, 0, 0, 0) := by
  refine ⟨by decide, by decide, by decide⟩

/-- C3: every integer point strictly outside the radius-48 circle centered at
`(64, 64)` is mapped to the fully transparent pixel `(0, 0, 0, 0)`. -/
theorem make_pixel_outside_head_transparent (x y : Int)
    (h : (x - 64) ^ 2 + (y - 64) ^ 2 > 48 ^ 2) :
    make_pixel x y = (0, 0, 0, 0) := by
  have h' : ¬((x - 64) * (x - 64) + (y - 64) * (y - 64) ≤ 48 * 48) := by
    simp only [pow_two] at h
    exact not_le.mpr h
  simp only [make_pixel, if_neg h']

/-- Witness for C3 at the concrete point `(0, 0)`. -/
theorem make_pixel_outside_head_transparent_witness :
    make_pixel 0 0 = (0, 0, 0, 0) :=
  make_pixel_outside_head_transparent 0 0 (by norm_num)

/-- One CRC-32 bit round stays below `2 ^ 32`. -/
lemma crc32Step_lt {c : Nat} (h : c < 2 ^ 32) : crc32Step c < 2 ^ 32 := by
  unfold crc32Step
  split
  · exact Nat.xor_lt_two_pow (by omega) (by norm_num)
  · omega

/-- Iterating the CRC-32 bit round stays below `2 ^ 32`. -/
lemma crc32Step_iterate_lt : ∀ (n : Nat) {c : Nat}, c < 2 ^ 32 →
    crc32Step^[n] c < 2 ^ 32
  | 0, _, h => h
  | n + 1, _, h => by
    rw [Function.iterate_succ_apply]
    exact crc32Step_iterate_lt n (crc32Step_lt h)

/-- A CRC-32 byte update of an in-range accumulator stays below `2 ^ 32`. -/
lemma crc32Update_lt {crc b : Nat} (hc : crc < 2 ^ 32) (hb : b < 256) :
    crc32Update crc b < 2 ^ 32 :=
  crc32Step_iterate_lt 8 (Nat.xor_lt_two_pow hc (by omega))

/-- Folding CRC-32 updates over a byte list stays below `2 ^ 32`. -/
lemma foldl_crc32Update_lt : ∀ (l : List Nat) {crc : Nat}, crc < 2 ^ 32 →
    (∀ b ∈ l, b < 256) → l.foldl crc32Update crc < 2 ^ 32
  | [], _, hc, _ => hc
  | b :: l, _, hc, hl => by
    rw [List.foldl_cons]
    exact foldl_crc32Update_lt l
      (crc32Update_lt hc (hl b (List.mem_cons_self b l)))
      (fun x hx => hl x (List.mem_cons_of_mem _ hx))

/-- The CRC-32 of a byte list is below `2 ^ 32`. -/
lemma crc32_lt (l : List Nat) (hl : ∀ b ∈ l, b < 256) : crc32 l < 2 ^ 32 := by
  unfold crc32
  exact Nat.xor_lt_two_pow (foldl_crc32Update_lt l (by norm_num) hl)
    (by norm_num)

/-- The `& 0xffffffff` mask in `chunk` is the identity on a CRC-32 of
bytes. -/
lemma crc32_mask (l : List Nat) (hl : ∀ b ∈ l, b < 256) :
    crc32 l &&& 0xffffffff = crc32 l := by
  have h : (0xffffffff : Nat) = 2 ^ 32 - 1 := by norm_num
  rw [h]
  exact Nat.and_pow_two_sub_one_of_lt_two_pow (crc32_lt l hl)

/-- C4: for every chunk type tag and payload made of bytes, `chunk` produces
the 4-byte big-endian payload length, then the tag, then the payload, then
the 4-byte big-endian CRC-32 of tag-plus-payload. -/
theorem chunk_framing (ctype data : List Nat)
    (hc : ∀ b ∈ ctype, b < 256) (hd : ∀ b ∈ data, b < 256) :
    chunk ctype data =
      packBE32 data.length ++ ctype ++ data ++
        packBE32 (crc32 (ctype ++ data)) := by
  have hm : ∀ b ∈ ctype ++ data, b < 256 := by
    intro b hb
    rcases List.mem_append.mp hb with h | h
    · exact hc b h
    · exact hd b h
  simp only [chunk]
  rw [crc32_mask _ hm]
  simp [List.append_assoc]

/-- Witness for C4 at the concrete IEND chunk. -/
theorem chunk_framing_witness :
    chunk iendTag [] =
      packBE32 (List.length ([] : List Nat)) ++ iendTag ++ [] ++
        packBE32 (crc32 (iendTag ++ [])) :=
  chunk_framing iendTag [] (by decide) (by decide)

/-- C5: for every compressor, the assembled stream is exactly the 8-byte PNG
signature followed by the IHDR, IDAT and IEND chunks in that order, the IDAT
payload being the compressor applied to the raw scanline buffer; in
particular the stream begins with the signature. -/
theorem png_stream_layout (compress : List Nat → List Nat) :
    png compress =
      sig ++ (chunk ihdrTag ihdr ++
        (chunk idatTag (compress raw) ++ chunk iendTag [])) ∧
    (png compress).take 8 = sig := by
  constructor
  · simp [png, List.append_assoc]
  · have h8 : (8 : Nat) = sig.length := rfl
    simp only [png, List.append_assoc]
    rw [h8, List.take_left]

/-- C6: the IHDR payload is 13 bytes: big-endian width 128 and height 128,
bit depth 8, color type 6 (RGBA), and compression/filter/interlace methods
all 0; a decoder reading it per the PNG specification sees exactly those
values. -/
theorem ihdr_dimensions :
    ihdr.length = 13 ∧
    ihdr = packBE32 128 ++ packBE32 128 ++ [8, 6, 0, 0, 0] ∧
    decodeIHDR ihdr = some (128, 128, 8, 6, 0, 0, 0) :=
  ⟨by decide, by decide, rfl⟩

/-- C7: the IEND chunk has a zero-length field and the fixed CRC
`0xAE426082`, the CRC-32 of the four tag bytes alone. -/
theorem iend_chunk_fixed :
    chunk iendTag [] = packBE32 0 ++ iendTag ++ packBE32 0xAE426082 ∧
    crc32 iendTag = 0xAE426082 :=
  ⟨by decide, by decide⟩

/-- C9: the assembled stream is a function of the fixed constants and the
compressed bytes of the raw buffer alone, so two runs whose compression
agrees on `raw` produce byte-identical streams. -/
theorem png_deterministic (c1 c2 : List Nat → List Nat)
    (h : c1 raw = c2 raw) : png c1 = png c2 := by
  simp only [png, h]

/-- Witness for C9 with the identity compressor on both runs. -/
theorem png_deterministic_witness : png id = png id :=
  png_deterministic id id rfl

/-- Appending a nonempty string yields a nonempty string. -/
lemma append_ne_empty (s t : String) (h : t ≠ "") : s ++ t ≠ "" := by
  intro he
  apply h
  have hd := congrArg String.data he
  rw [String.data_append] at hd
  exact String.ext (List.append_eq_nil.mp hd).2

/-- The last character of an append is the last character of its nonempty
right part. -/
lemma data_getLast?_append (s t : String) {c : Char}
    (h : t.data.getLast? = some c) : (s ++ t).data.getLast? = some c := by
  rw [String.data_append, List.getLast?_append, h]
  rfl

/-- The separating case of `joinOne`: a nonempty left part not ending in a
slash gets a separator inserted. -/
lemma joinOne_sep (a b : String) (h1 : a ≠ "")
    (h2 : a.data.getLast? ≠ some '/') : joinOne a b = a ++ "/" ++ b := by
  unfold joinOne
  rw [if_neg h1, if_neg h2]

/-- The path the program joins together, for any script directory that is
nonempty and does not end in a slash. -/
lemma outpath_eq (d : String) (h1 : d ≠ "")
    (h2 : d.data.getLast? ≠ some '/') :
    outpath d = d ++ "/../media/icon.png" := by
  have j1 : joinOne d ".." = d ++ "/" ++ ".." := joinOne_sep d ".." h1 h2
  have e1 : (d ++ "/" ++ "..") ≠ "" := append_ne_empty _ _ (by decide)
  have l1 : (d ++ "/" ++ "..").data.getLast? = some '.' :=
    data_getLast?_append _ ".." (by decide)
  have j2 : joinOne (d ++ "/" ++ "..") "media" =
      d ++ "/" ++ ".." ++ "/" ++ "media" :=
    joinOne_sep _ _ e1 (by rw [l1]; decide)
  have e2 : (d ++ "/" ++ ".." ++ "/" ++ "media") ≠ "" :=
    append_ne_empty _ _ (by decide)
  have l2 : (d ++ "/" ++ ".." ++ "/" ++ "media").data.getLast? = some 'a' :=
    data_getLast?_append _ "media" (by decide)
  have j3 : joinOne (d ++ "/" ++ ".." ++ "/" ++ "media") "icon.png" =
      d ++ "/" ++ ".." ++ "/" ++ "media" ++ "/" ++ "icon.png" :=
    joinOne_sep _ _ e2 (by rw [l2]; decide)
  unfold outpath
  rw [j1, j2, j3]
  simp only [String.append_assoc]
  exact congrArg (fun s => d ++ s) (by decide)

/-- Computing `dirnameChars` on any prefix followed by the concrete suffix
`/../media/icon.png` strips exactly the final `/icon.png`. -/
lemma dirnameChars_media (l : List Char) :
    dirnameChars (l ++ "/../media/icon.png".data) = l ++ "/../media".data := by
  simp only [dirnameChars]
  rw [List.reverse_append]
  rw [List.dropWhile_append]
  have h1 : List.dropWhile (fun c => c != '/') "/../media/icon.png".data.reverse
      = ['/', 'a', 'i', 'd', 'e', 'm', '/', '.', '.', '/'] := by decide
  rw [h1]
  simp only [List.isEmpty_cons, Bool.false_eq_true, if_false]
  rw [List.all_append]
  have h2 : (['/', 'a', 'i', 'd', 'e', 'm', '/', '.', '.', '/'].all
      (fun c => c == '/')) = false := by decide
  rw [h2]
  simp only [Bool.false_and, Bool.false_eq_true, if_false]
  rw [List.dropWhile_append]
  have h3 : List.dropWhile (fun c => c == '/')
      ['/', 'a', 'i', 'd', 'e', 'm', '/', '.', '.', '/']
      = ['a', 'i', 'd', 'e', 'm', '/', '.', '.', '/'] := by decide
  rw [h3]
  simp only [List.isEmpty_cons, Bool.false_eq_true, if_false]
  rw [List.reverse_append, List.reverse_reverse]
  exact congrArg (fun t => l ++ t) (by decide)

/-- The directory the program creates, below any script directory. -/
lemma dirname_media (d : String) :
    dirname (d ++ "/../media/icon.png") = d ++ "/../media" := by
  apply String.ext
  show dirnameChars (d ++ "/../media/icon.png").data = (d ++ "/../media").data
  rw [String.data_append, String.data_append]
  exact dirnameChars_media d.data

/-- C2 counterexample: at the concrete script directory `/repo/scripts`, the
computed output path is `/repo/scripts/../media/icon.png`, which is not
`media/icon.png` relative to the script's directory — not even after
resolving the `..` component. -/
theorem outpath_not_under_script_dir :
    outpath "/repo/scripts" = "/repo/scripts/../media/icon.png" ∧
    outpath "/repo/scripts" ≠ "/repo/scripts" ++ "/media/icon.png" ∧
    resolvePath (outpath "/repo/scripts") ≠
      resolvePath ("/repo/scripts" ++ "/media/icon.png") :=
  ⟨by decide, by decide, by decide⟩

/-- C2 amended: for every nonempty script directory not ending in a slash,
the output path is `../media/icon.png` relative to the script's directory
(that is, `media/icon.png` relative to its parent), and the directory passed
to `os.makedirs(..., exist_ok=True)` before writing is exactly the parent
directory `../media` of that path. -/
theorem outpath_and_mkdir (d : String) (h1 : d ≠ "")
    (h2 : d.data.getLast? ≠ some '/') :
    outpath d = d ++ "/../media/icon.png" ∧
    mkdirTarget d = d ++ "/../media" := by
  have ho := outpath_eq d h1 h2
  refine ⟨ho, ?_⟩
  unfold mkdirTarget
  rw [ho]
  exact dirname_media d

/-- Witness for the amended C2 at the script directory `/repo/scripts`. -/
theorem outpath_and_mkdir_witness :
    outpath "/repo/scripts" = "/repo/scripts" ++ "/../media/icon.png" ∧
    mkdirTarget "/repo/scripts" = "/repo/scripts" ++ "/../media" :=
  outpath_and_mkdir "/repo/scripts" (by decide) (by decide)

/-- The pixel bytes of one scanline: the four packed bytes of
`make_pixel(x, y)` for `x = 0, …, 127` in order. -/
def pixelRow (y : Nat) : List Nat :=
  (List.range width).flatMap (fun x : Nat => packPixel (make_pixel x y))

/-- One full scanline: the filter-type byte `0x00` followed by the pixel
bytes. -/
def row (y : Nat) : List Nat := 0 :: pixelRow y

/-- Folding list appends is flat-mapping. -/
lemma foldl_append_eq_flatMap {α β : Type} (g : α → List β) :
    ∀ (l : List α) (init : List β),
      l.foldl (fun acc a => acc ++ g a) init = init ++ l.flatMap g := by
  intro l
  induction l with
  | nil => intro init; simp
  | cons a t ih =>
    intro init
    simp [List.foldl_cons, List.flatMap_cons, ih, List.append_assoc]

/-- The scanline loop of `create_icon.py`, over any list of row indices,
appends one scanline per index. -/
lemma foldl_rows (l : List Nat) : ∀ init : List Nat,
    l.foldl
      (fun acc (y : Nat) =>
        (List.range width).foldl
          (fun acc2 (x : Nat) => acc2 ++ packPixel (make_pixel x y))
          (acc ++ [0]))
      init
    = init ++ l.flatMap row := by
  induction l with
  | nil => intro init; simp
  | cons a t ih =>
    intro init
    rw [List.foldl_cons,
      foldl_append_eq_flatMap (fun x : Nat => packPixel (make_pixel x a))
        (List.range width) (init ++ [0]),
      ih]
    simp [row, pixelRow, List.flatMap_cons, List.append_assoc]

/-- The raw buffer is the concatenation of the 128 scanlines in row order. -/
lemma raw_eq_flatMap : raw = (List.range height).flatMap row :=
  (foldl_rows (List.range height) []).trans (List.nil_append _)

/-- Flat-mapping blocks of a constant length `k` multiplies lengths by
`k`. -/
lemma length_flatMap_const {α β : Type} (g : α → List β) (k : Nat)
    (hk : ∀ a, (g a).length = k) :
    ∀ l : List α, (l.flatMap g).length = k * l.length := by
  intro l
  induction l with
  | nil => simp
  | cons a t ih =>
    simp only [List.flatMap_cons, List.length_append, hk, ih,
      List.length_cons, Nat.mul_succ]
    omega

/-- A packed pixel is four bytes. -/
lemma packPixel_length (p : Nat × Nat × Nat × Nat) :
    (packPixel p).length = 4 := rfl

/-- The pixel bytes of a scanline are `4 * 128 = 512` bytes. -/
lemma pixelRow_length (y : Nat) : (pixelRow y).length = 512 := by
  rw [pixelRow, length_flatMap_const (fun x : Nat => packPixel (make_pixel x y))
    4 (fun _ => rfl), List.length_range]
  decide

/-- A full scanline is `1 + 512 = 513` bytes. -/
lemma row_length (y : Nat) : (row y).length = 513 := by
  simp [row, pixelRow_length]

/-- Indexing into a flat-map of blocks of constant length `k`: position
`k * j + i` reads position `i` of block `j`. -/
lemma getElem?_flatMap_const {α β : Type} (g : α → List β) (k : Nat)
    (hk : ∀ a, (g a).length = k) :
    ∀ (l : List α) (j i : Nat) (hj : j < l.length), i < k →
      (l.flatMap g)[k * j + i]? = (g (l.get ⟨j, hj⟩))[i]? := by
  intro l
  induction l with
  | nil => intro j i hj hi; exact absurd hj (by simp)
  | cons a t ih =>
    intro j i hj hi
    rw [List.flatMap_cons]
    cases j with
    | zero =>
      have h0 : k * 0 + i = i := by omega
      rw [h0, List.getElem?_append, hk, if_pos hi]
      rfl
    | succ j =>
      have hj' : j < t.length := by simpa using hj
      have hidx : k * (j + 1) + i = (g a).length + (k * j + i) := by
        rw [hk]; ring
      rw [hidx, List.getElem?_append, if_neg (by omega)]
      have hsub : (g a).length + (k * j + i) - (g a).length = k * j + i := by
        omega
      rw [hsub]
      exact ih j i hj' hi

/-- Byte `513 * y + i` of the raw buffer is byte `i` of scanline `y`. -/
lemma raw_getElem (y i : Nat) (hy : y < 128) (hi : i < 513) :
    raw[513 * y + i]? = (row y)[i]? := by
  rw [raw_eq_flatMap]
  have hylen : y < (List.range height).length := by
    simpa [height, List.length_range] using hy
  have h := getElem?_flatMap_const row 513 row_length
    (List.range height) y i hylen hi
  rw [List.get_range] at h
  exact h

/-- Byte `4 * x + i` of the pixel bytes of scanline `y` is byte `i` of the
packed pixel at `(x, y)`. -/
lemma pixelRow_getElem (y x i : Nat) (hx : x < 128) (hi : i < 4) :
    (pixelRow y)[4 * x + i]? = (packPixel (make_pixel x y))[i]? := by
  unfold pixelRow
  have hxlen : x < (List.range width).length := by
    simpa [width, List.length_range] using hx
  have h := getElem?_flatMap_const (fun x : Nat => packPixel (make_pixel x y))
    4 (fun _ => rfl) (List.range width) x i hxlen hi
  rw [List.get_range] at h
  exact h

/-- C8: the raw buffer is 128 scanlines in row-major order, each one a
filter byte `0x00` at offset `513 * y` followed by 128 four-byte pixels in
order of increasing `x`, for a total of `128 * (1 + 128 * 4) = 65664`
bytes. -/
theorem raw_scanline_layout :
    raw.length = 65664 ∧
    (∀ y : Nat, y < 128 → raw[513 * y]? = some 0) ∧
    (∀ y x i : Nat, y < 128 → x < 128 → i < 4 →
      raw[513 * y + 1 + 4 * x + i]? = (packPixel (make_pixel x y))[i]?) := by
  refine ⟨?_, ?_, ?_⟩
  · rw [raw_eq_flatMap, length_flatMap_const row 513 row_length,
      List.length_range]
    decide
  · intro y hy
    have h0 : 513 * y = 513 * y + 0 := by omega
    rw [h0, raw_getElem y 0 hy (by omega)]
    rfl
  · intro y x i hy hx hi
    have hidx : 513 * y + 1 + 4 * x + i = 513 * y + (1 + (4 * x + i)) := by
      omega
    rw [hidx, raw_getElem y (1 + (4 * x + i)) hy (by omega)]
    have hsucc : 1 + (4 * x + i) = (4 * x + i) + 1 := by omega
    rw [hsucc]
    simp only [row, List.getElem?_cons_succ]
    exact pixelRow_getElem y x i hx hi

/-- Witness for C8: the filter byte of scanline 1 and one concrete pixel
byte. -/
theorem raw_scanline_layout_witness :
    raw[513 * 1]? = some 0 ∧
    raw[513 * 1 + 1 + 4 * 2 + 3]? = (packPixel (make_pixel 2 1))[3]? :=
  ⟨raw_scanline_layout.2.1 1 (by decide),
   raw_scanline_layout.2.2 1 2 3 (by decide) (by decide) (by decide)⟩

/-- C10: `make_pixel` is total and its image is contained in exactly four RGBA
tuples; in particular the alpha component is always 0 or 255. -/
theorem make_pixel_range (x y : Int) :
    make_pixel x y ∈
      ([(0, 0, 0, 0), (255, 255, 255, 255), (100, 149, 237, 255),
        (65, 105, 225, 255)] : List (Nat × Nat × Nat × Nat)) ∧
    ((make_pixel x y).2.2.2 = 0 ∨ (make_pixel x y).2.2.2 = 255) := by
  simp only [make_pixel]
  split_ifs <;> simp
